import Mathlib

/-!
Verification of the streaming tabular-aggregation core specified for
`pythonic.py` (the CSV idiom at lines 70-78, the iterator-resume idiom at
lines 43-51).  Raw text is modelled as lists of characters so that the
splitting, zipping and dictionary semantics of the Python source can be
stated and proved exactly.
-/

set_option autoImplicit false

/-- A raw string, modelled as its list of characters. -/
abbrev Str := List Char

/-- Convert a Lean string literal into the character-list model. -/
def str (s : String) : Str := s.toList

/-- Python `line.split(sep)` for a single-character separator
(`pythonic.py` lines 73 and 76 split on `','`): splits on every occurrence
of the separator; the empty string yields `[""]`, and separators at the
ends yield empty fields. -/
def pySplit (sep : Char) : Str → List Str
  | [] => [[]]
  | c :: rest =>
    match pySplit sep rest with
    | [] => [[]]
    | f :: fs => if c = sep then [] :: f :: fs else (c :: f) :: fs

/-- One step of Python `dict(pairs)` construction: binding a key that is
already present overwrites its value in place (insertion order keeps the
first occurrence's position); a fresh key is appended. -/
def pyDictInsert (d : List (Str × Str)) (kv : Str × Str) : List (Str × Str) :=
  if d.any (fun p => p.1 = kv.1) then
    d.map (fun p => if p.1 = kv.1 then kv else p)
  else
    d ++ [kv]

/-- Python `dict(pairs)`: fold the pairs left to right, later bindings of
the same key overwriting earlier ones (`pythonic.py` line 76). -/
def pyDict (pairs : List (Str × Str)) : List (Str × Str) :=
  pairs.foldl pyDictInsert []

/-- Python `d[k]` on the association-list model of a dict: the first entry
with the key (unique after `pyDict`), `none` when absent. -/
def pyLookup (d : List (Str × Str)) (k : Str) : Option Str :=
  match d with
  | [] => none
  | (k', v) :: rest => if k' = k then some v else pyLookup rest k

/-- Row construction, `pythonic.py` line 76:
`dict(zip(field_names, line.split(',')))`. -/
def mkRow (header : List Str) (line : Str) : List (Str × Str) :=
  pyDict (List.zip header (pySplit ',' line))

/-- The numeric value of a digit string, most significant digit first. -/
def digitsVal (ds : Str) : Nat :=
  ds.foldl (fun n c => 10 * n + (c.toNat - Char.toNat '0')) 0

/-- Parse a non-empty, all-digit string; `none` otherwise. -/
def parseDigits : Str → Option Nat
  | [] => none
  | ds => if ds.all Char.isDigit then some (digitsVal ds) else none

/-- Python `s.strip()` (as applied implicitly by `int`): drop leading and
trailing whitespace. -/
def pyStrip (s : Str) : Str :=
  ((s.dropWhile Char.isWhitespace).reverse.dropWhile Char.isWhitespace).reverse

/-- Python `int(s)` (`pythonic.py` line 78): surrounding whitespace is
accepted, then an optional sign followed by one or more digits; any other
string raises, modelled as `none`. -/
def pyInt (s : Str) : Option Int :=
  match pyStrip s with
  | '-' :: ds => (parseDigits ds).map (fun n => -(n : Int))
  | '+' :: ds => (parseDigits ds).map (fun n => (n : Int))
  | ds => (parseDigits ds).map (fun n => (n : Int))

/-- A forward iterator over a list, `pythonic.py` line 43
(`itr_lst = iter(lst)`): the underlying sequence plus a cursor. -/
structure Iter (α : Type) where
  src : List α
  pos : Nat
deriving DecidableEq

/-- Python `iter(lst)`: a fresh cursor at the start of the list. -/
def iterOf {α : Type} (lst : List α) : Iter α := ⟨lst, 0⟩

/-- One pull from the iterator (Python `next`): the element under the
cursor and the advanced iterator, or `none` at the end. -/
def Iter.next {α : Type} (it : Iter α) : Option (α × Iter α) :=
  match it.src.get? it.pos with
  | some a => some (a, ⟨it.src, it.pos + 1⟩)
  | none => none

/-- Pull at most `k` items from the iterator (the first `for` loop of
`pythonic.py` lines 45-48, which stops after some number of items),
returning the items pulled and the iterator as the loop leaves it. -/
def Iter.takeN {α : Type} : Nat → Iter α → List α × Iter α
  | 0, it => ([], it)
  | k + 1, it =>
    match it.next with
    | none => ([], it)
    | some (a, it') =>
      let r := Iter.takeN k it'
      (a :: r.1, r.2)

/-- Pull everything that remains (the second `for` loop of `pythonic.py`
lines 50-51): pulling `src.length` times exhausts any iterator. -/
def Iter.drain {α : Type} (it : Iter α) : List α :=
  (Iter.takeN it.src.length it).1

deriving instance DecidableEq for Except

/-- Errors of the aggregation core (spec section 7). -/
inductive AggError where
  | emptyInput
  | unknownField
  | valueConversion
  | emptyAggregation
deriving DecidableEq

/-- Modelled from the spec: `RecordStream(lines)` is absent from the
source (which works directly on an open file `f`); per the spec it wraps a
line sequence behind a single forward cursor together with the
once-captured header cache. -/
structure RecordStream where
  lines : List Str
  pos : Nat
  cachedHeader : Option (List Str)
deriving DecidableEq

/-- Modelled from the spec: construction of a `RecordStream` consumes no
input — the cursor starts at the first line and nothing is cached. -/
def RecordStream.make (lines : List Str) : RecordStream :=
  ⟨lines, 0, none⟩

/-- One pull of a raw line from the stream's cursor (the source's
`f.next()`): the line under the cursor and the advanced stream. -/
def RecordStream.nextLine (s : RecordStream) : Option (Str × RecordStream) :=
  match s.lines.get? s.pos with
  | some l => some (l, ⟨s.lines, s.pos + 1, s.cachedHeader⟩)
  | none => none

/-- Modelled from the spec: `header()`. The source captures the header
once with `field_names = f.next().split(',')` (`pythonic.py` line 73); the
spec's operation consumes the first line on the first call, caches the
split field names, and on later calls returns the cache without touching
the cursor; an empty input fails with `EmptyInputError`. -/
def RecordStream.header (s : RecordStream) :
    Except AggError (List Str × RecordStream) :=
  match s.cachedHeader with
  | some h => .ok (h, s)
  | none =>
    match s.nextLine with
    | some (l, s') =>
      .ok (pySplit ',' l, ⟨s'.lines, s'.pos, some (pySplit ',' l)⟩)
    | none => .error .emptyInput

/-- One pull of a structured row, given the captured header: split the
next line and zip it against the header (`pythonic.py` line 76), advancing
the cursor by that one line. -/
def RecordStream.nextRow (s : RecordStream) (h : List Str) :
    Option (List (Str × Str) × RecordStream) :=
  match s.nextLine with
  | some (l, s') => some (mkRow h l, s')
  | none => none

/-- Modelled from the spec: the recognized reducers of `FieldAggregator`. -/
inductive Reducer where
  | rsum
  | rcount
  | rmin
  | rmax
deriving DecidableEq

/-- Modelled from the spec: the `on_bad_value` policy of
`FieldAggregator`: drop the row, abort with the conversion error, or
substitute a default value. -/
inductive BadPolicy where
  | skip
  | fail
  | defaultTo (v : Int)
deriving DecidableEq

/-- Extract the field's numeric value from one data line: look the field
up in the constructed row (absence is a bad value) and convert with
`pyInt` (`int(record['quantity'])`, `pythonic.py` line 78). -/
def convertValue (h : List Str) (field : Str) (line : Str) : Option Int :=
  match pyLookup (mkRow h line) field with
  | some raw => pyInt raw
  | none => none

/-- Modelled from the spec: the per-row loop of `compute()` — each data
line's field value is converted, and a bad value is routed through the
`on_bad_value` policy; the successfully obtained numbers are kept in
stream order. -/
def convertedValues (h : List Str) (field : Str) (pol : BadPolicy) :
    List Str → Except AggError (List Int)
  | [] => .ok []
  | line :: rest =>
    match convertValue h field line with
    | some n => (convertedValues h field pol rest).map (fun vs => n :: vs)
    | none =>
      match pol with
      | .skip => convertedValues h field pol rest
      | .fail => .error .valueConversion
      | .defaultTo v => (convertedValues h field pol rest).map (fun vs => v :: vs)

/-- Modelled from the spec: the final reduction of `compute()`. `count`
returns how many rows converted successfully; `sum`, `min` and `max` over
zero converted rows fail with `EmptyAggregationError`, otherwise fold the
values. -/
def applyReducer (red : Reducer) (vals : List Int) : Except AggError Int :=
  match red with
  | .rcount => .ok (vals.length : Int)
  | .rsum =>
    match vals with
    | [] => .error .emptyAggregation
    | _ => .ok (vals.foldl (· + ·) 0)
  | .rmin =>
    match vals with
    | [] => .error .emptyAggregation
    | v :: vs => .ok (vs.foldl min v)
  | .rmax =>
    match vals with
    | [] => .error .emptyAggregation
    | v :: vs => .ok (vs.foldl max v)

/-- Modelled from the spec: `FieldAggregator(stream, field_name, reducer,
on_bad_value).compute()` is absent from the source (which inlines
`sum(int(record['quantity']) for record in records)` at line 78).  Per the
spec it pulls `header()` once, fails fast with `UnknownFieldError` when
the field is not among the header names, then folds the converted values
of the remaining lines.  Numeric conversion is modelled as integer
conversion only: no claim exercises the decimal fallback. -/
def compute (s : RecordStream) (field : Str) (red : Reducer)
    (pol : BadPolicy) : Except AggError Int :=
  match s.header with
  | .error e => .error e
  | .ok (h, s') =>
    if field ∈ h then
      match convertedValues h field pol (s'.lines.drop s'.pos) with
      | .error e => .error e
      | .ok vals => applyReducer red vals
    else
      .error .unknownField

example : pySplit ',' (str "1,2") = [str "1", str "2"] := by decide
example : pySplit ',' (str "") = [str ""] := by decide
example : pySplit ',' (str "a,") = [str "a", str ""] := by decide
example : mkRow [str "a", str "b", str "c"] (str "1,2")
    = [(str "a", str "1"), (str "b", str "2")] := by decide
example : mkRow [str "a", str "b", str "c"] (str "1,2,3,4")
    = [(str "a", str "1"), (str "b", str "2"), (str "c", str "3")] := by decide
example : pyLookup (mkRow [str "a", str "b", str "a"] (str "1,2,3")) (str "a")
    = some (str "3") := by decide
example : pyInt (str "3\n") = some 3 := by decide
example : pyInt (str " -42 ") = some (-42) := by decide
example : pyInt (str "x") = none := by decide
example : pyInt (str "") = none := by decide
example : compute (RecordStream.make [str "qty\n", str "3\n", str "5\n", str "x\n"])
    (str "qty\n") .rsum .skip = .ok 8 := by decide
example : compute (RecordStream.make [str "qty\n", str "3\n", str "5\n", str "x\n"])
    (str "qty") .rsum .skip = .error .unknownField := by decide
example : compute (RecordStream.make [str "qty\n"]) (str "qty\n") .rmin .skip
    = .error .emptyAggregation := by decide
example : Iter.takeN 2 (iterOf [10, 20, 30]) = ([10, 20], ⟨[10, 20, 30], 2⟩) := by decide
example : Iter.drain ⟨[10, 20, 30], 2⟩ = [30] := by decide

/-! ### Iterator lemmas -/

theorem iterTakeN_eq {α : Type} (k : Nat) (src : List α) (p : Nat)
    (hp : p ≤ src.length) :
    Iter.takeN k ⟨src, p⟩ = ((src.drop p).take k, ⟨src, min (p + k) src.length⟩) := by
  induction k generalizing p with
  | zero =>
    simp [Iter.takeN, Nat.min_eq_left hp]
  | succ k ih =>
    cases hget : src[p]? with
    | none =>
      have hlen : src.length ≤ p := List.getElem?_eq_none_iff.mp hget
      have hpe : p = src.length := le_antisymm hp hlen
      subst hpe
      have hmin : min (src.length + (k + 1)) src.length = src.length :=
        Nat.min_eq_right (Nat.le_add_right _ _)
      simp [Iter.takeN, Iter.next, hget, List.drop_length, hmin]
    | some a =>
      obtain ⟨h1, h2⟩ := List.getElem?_eq_some_iff.mp hget
      have ih' := ih (p + 1) (by omega)
      have hdrop : src.drop p = a :: src.drop (p + 1) := by
        rw [List.drop_eq_getElem_cons h1, h2]
      have harith : p + 1 + k = p + (k + 1) := by omega
      simp [Iter.takeN, Iter.next, hget, ih', hdrop, harith]

theorem iterDrain_eq {α : Type} (src : List α) (p : Nat) (hp : p ≤ src.length) :
    Iter.drain ⟨src, p⟩ = src.drop p := by
  unfold Iter.drain
  rw [iterTakeN_eq _ _ _ hp]
  exact List.take_of_length_le (by simp)

/-- C3: iterating a stream of `N` rows, stopping after row `k`, then
resuming iteration on the same iterator yields exactly rows `k+1..N` in
order; together the two passes cover the rows with no duplicates and no
gaps. -/
theorem iter_resume_law {α : Type} (rows : List α) (k : Nat)
    (hk : k ≤ rows.length) :
    (Iter.takeN k (iterOf rows)).1 = rows.take k ∧
    Iter.drain (Iter.takeN k (iterOf rows)).2 = rows.drop k ∧
    (Iter.takeN k (iterOf rows)).1 ++ Iter.drain (Iter.takeN k (iterOf rows)).2
      = rows := by
  have h := iterTakeN_eq k rows 0 (Nat.zero_le _)
  have hmin : min (0 + k) rows.length = k := by omega
  rw [hmin] at h
  unfold iterOf
  rw [h]
  refine ⟨by simp, ?_, ?_⟩
  · exact iterDrain_eq rows k hk
  · have hd : Iter.drain ⟨rows, k⟩ = rows.drop k := iterDrain_eq rows k hk
    simp [hd]

/-- C3 witness: the iterator over `[100, 101, 102]` (the source's
`lst = range(100, 200)` in miniature), stopped after two items and
resumed. -/
theorem iter_resume_law_witness :
    (Iter.takeN 2 (iterOf [100, 101, 102])).1 = [100, 101] ∧
    Iter.drain (Iter.takeN 2 (iterOf [100, 101, 102])).2 = [102] ∧
    (Iter.takeN 2 (iterOf [100, 101, 102])).1
      ++ Iter.drain (Iter.takeN 2 (iterOf [100, 101, 102])).2
      = [100, 101, 102] :=
  iter_resume_law [100, 101, 102] 2 (by decide)

/-- C4: `header()` is idempotent — on a non-empty input the first call
consumes exactly the first line (the cursor moves from 0 to 1) and caches
the split field names, and a further call on the resulting stream returns
the identical sequence with the stream state unchanged. -/
theorem header_idempotent (l : Str) (rest : List Str) :
    (RecordStream.make (l :: rest)).header
      = .ok (pySplit ',' l, ⟨l :: rest, 1, some (pySplit ',' l)⟩) ∧
    RecordStream.header ⟨l :: rest, 1, some (pySplit ',' l)⟩
      = .ok (pySplit ',' l, ⟨l :: rest, 1, some (pySplit ',' l)⟩) :=
  ⟨rfl, rfl⟩

/-- C7: constructing a `RecordStream` consumes no input — the cursor
starts at position 0 over the untouched line sequence with nothing
cached — and rows are produced lazily: each successful pull of a line or
of a row advances the cursor by exactly one line. -/
theorem construction_consumes_nothing :
    (∀ lines : List Str,
        (RecordStream.make lines).pos = 0 ∧
        (RecordStream.make lines).lines = lines ∧
        (RecordStream.make lines).cachedHeader = none) ∧
    (∀ (s s' : RecordStream) (l : Str),
        s.nextLine = some (l, s') → s'.pos = s.pos + 1 ∧ s'.lines = s.lines) ∧
    (∀ (s s' : RecordStream) (h : List Str) (row : List (Str × Str)),
        s.nextRow h = some (row, s') → s'.pos = s.pos + 1 ∧ s'.lines = s.lines) := by
  refine ⟨fun lines => ⟨rfl, rfl, rfl⟩, ?_, ?_⟩
  · intro s s' l hn
    unfold RecordStream.nextLine at hn
    cases hget : s.lines.get? s.pos with
    | none => rw [hget] at hn; exact absurd hn (by simp)
    | some a =>
      rw [hget] at hn
      have h2 : (⟨s.lines, s.pos + 1, s.cachedHeader⟩ : RecordStream) = s' :=
        congrArg Prod.snd (Option.some.inj hn)
      rw [← h2]
      exact ⟨rfl, rfl⟩
  · intro s s' h row hn
    unfold RecordStream.nextRow RecordStream.nextLine at hn
    cases hget : s.lines.get? s.pos with
    | none => rw [hget] at hn; exact absurd hn (by simp)
    | some a =>
      rw [hget] at hn
      have h2 : (⟨s.lines, s.pos + 1, s.cachedHeader⟩ : RecordStream) = s' :=
        congrArg Prod.snd (Option.some.inj hn)
      rw [← h2]
      exact ⟨rfl, rfl⟩

/-- C7 witness: a concrete one-line stream — construction leaves the
cursor at 0, and one pull advances it to exactly 1. -/
theorem construction_consumes_nothing_witness :
    ((RecordStream.make [str "a"]).pos = 0 ∧
     (RecordStream.make [str "a"]).lines = [str "a"] ∧
     (RecordStream.make [str "a"]).cachedHeader = none) ∧
    ((⟨[str "a"], 1, none⟩ : RecordStream).pos
        = (RecordStream.make [str "a"]).pos + 1 ∧
     (⟨[str "a"], 1, none⟩ : RecordStream).lines
        = (RecordStream.make [str "a"]).lines) :=
  ⟨construction_consumes_nothing.1 [str "a"],
   construction_consumes_nothing.2.1 (RecordStream.make [str "a"])
     ⟨[str "a"], 1, none⟩ (str "a") rfl⟩

/-- C2: `sum`, `min` or `max` over a stream in which zero rows converted
successfully (the converted-value sequence is empty) fails with
`EmptyAggregationError` rather than returning a value. -/
theorem compute_empty_aggregation (s : RecordStream) (field : Str)
    (red : Reducer) (pol : BadPolicy) (h : List Str) (s' : RecordStream)
    (hred : red = .rsum ∨ red = .rmin ∨ red = .rmax)
    (hhdr : s.header = .ok (h, s'))
    (hfield : field ∈ h)
    (hvals : convertedValues h field pol (s'.lines.drop s'.pos) = .ok []) :
    compute s field red pol = .error .emptyAggregation := by
  unfold compute
  rw [hhdr]
  rcases hred with h1 | h1 | h1 <;> subst h1 <;> simp [hfield, hvals, applyReducer]

/-- C2 witness: a header-only input (`["qty\n"]`, zero data rows) under
`min` with `skip` fails with `EmptyAggregationError`. -/
theorem compute_empty_aggregation_witness :
    compute (RecordStream.make [str "qty\n"]) (str "qty\n") .rmin .skip
      = .error .emptyAggregation :=
  compute_empty_aggregation _ _ _ _ (pySplit ',' (str "qty\n"))
    ⟨[str "qty\n"], 1, some (pySplit ',' (str "qty\n"))⟩
    (Or.inr (Or.inl rfl)) rfl (by decide) rfl

/-- C6: when the requested field is absent from the split header,
`compute()` fails with `UnknownFieldError` for every choice of reducer and
`on_bad_value` policy and for every sequence of data lines — the check is
made against the header alone, before any data row is touched. -/
theorem compute_unknown_field (hl : Str) (field : Str)
    (hfield : field ∉ pySplit ',' hl) (rest : List Str)
    (red : Reducer) (pol : BadPolicy) :
    compute (RecordStream.make (hl :: rest)) field red pol
      = .error .unknownField := by
  unfold compute
  have hhdr : (RecordStream.make (hl :: rest)).header
      = .ok (pySplit ',' hl, ⟨hl :: rest, 1, some (pySplit ',' hl)⟩) := rfl
  rw [hhdr]
  simp [hfield]

/-- C6 witness: `"nonexistent"` is not among the header names of
`["qty\n", "3\n"]`, so `compute` fails with `UnknownFieldError`. -/
theorem compute_unknown_field_witness :
    compute (RecordStream.make [str "qty\n", str "3\n"]) (str "nonexistent")
        .rsum .skip = .error .unknownField :=
  compute_unknown_field (str "qty\n") (str "nonexistent") (by decide)
    [str "3\n"] .rsum .skip

/-- C5 counterexample: over the lines `["qty\n", "3\n", "5\n", "x\n"]` the
header name is the unstripped `"qty\n"`, so aggregating the field `"qty"`
fails with `UnknownFieldError` instead of returning 8. -/
theorem sum_skip_qty_counterexample :
    compute (RecordStream.make [str "qty\n", str "3\n", str "5\n", str "x\n"])
        (str "qty") .rsum .skip = .error .unknownField ∧
    compute (RecordStream.make [str "qty\n", str "3\n", str "5\n", str "x\n"])
        (str "qty") .rsum .skip ≠ .ok 8 := by
  decide

/-- C5 amended: with the field named by the actual header entry `"qty\n"`,
`sum` with `skip` drops the malformed row `"x\n"` and returns `3 + 5 = 8`. -/
theorem sum_skip_qty_amended :
    compute (RecordStream.make [str "qty\n", str "3\n", str "5\n", str "x\n"])
        (str "qty\n") .rsum .skip = .ok 8 := by
  decide

/-! ### Dictionary lemmas -/

/-- First-hit choice between two optional results (lookup through an
append). -/
def optOr {α : Type} : Option α → Option α → Option α
  | some v, _ => some v
  | none, b => b

theorem optOr_none_right {α : Type} (x : Option α) : optOr x none = x := by
  cases x <;> rfl

theorem pyLookup_append (d e : List (Str × Str)) (k : Str) :
    pyLookup (d ++ e) k = optOr (pyLookup d k) (pyLookup e k) := by
  induction d with
  | nil => rfl
  | cons p rest ih =>
    cases p with
    | mk k' v =>
      by_cases h : k' = k
      · simp [pyLookup, h, optOr]
      · simp [pyLookup, h, ih]

theorem pyLookup_eq_none (d : List (Str × Str)) (k : Str)
    (hk : k ∉ d.map Prod.fst) : pyLookup d k = none := by
  induction d with
  | nil => rfl
  | cons p rest ih =>
    cases p with
    | mk k' v =>
      simp only [List.map_cons, List.mem_cons, not_or] at hk
      have hne : k' ≠ k := fun hc => hk.1 hc.symm
      simp [pyLookup, hne, ih hk.2]

theorem pyLookup_cons (a b : Str) (rest : List (Str × Str)) (k : Str) :
    pyLookup ((a, b) :: rest) k = if a = k then some b else pyLookup rest k :=
  rfl

theorem pyLookup_map_replace_ne (d : List (Str × Str)) (a b : Str)
    (k : Str) (hne : a ≠ k) :
    pyLookup (d.map (fun p => if p.1 = a then (a, b) else p)) k
      = pyLookup d k := by
  induction d with
  | nil => rfl
  | cons p rest ih =>
    obtain ⟨k', v⟩ := p
    simp only [List.map_cons]
    by_cases h : k' = a
    · rw [if_pos h, pyLookup_cons, pyLookup_cons, if_neg hne, ih,
        if_neg (fun hc => hne (h.symm.trans hc))]
    · rw [if_neg h, pyLookup_cons, pyLookup_cons, ih]

theorem pyLookup_map_replace (d : List (Str × Str)) (a b : Str)
    (k : Str) (hmem : ∃ p ∈ d, p.1 = a) :
    pyLookup (d.map (fun p => if p.1 = a then (a, b) else p)) k
      = if a = k then some b else pyLookup d k := by
  induction d with
  | nil => simp at hmem
  | cons p rest ih =>
    obtain ⟨k', v⟩ := p
    simp only [List.map_cons]
    by_cases h : k' = a
    · rw [if_pos h, pyLookup_cons, pyLookup_cons]
      by_cases hk : a = k
      · rw [if_pos hk, if_pos hk]
      · rw [if_neg hk, if_neg hk, if_neg (fun hc => hk (h.symm.trans hc)),
          pyLookup_map_replace_ne rest a b k hk]
    · have hmem' : ∃ p ∈ rest, p.1 = a := by
        rcases hmem with ⟨q, hq, hq1⟩
        rcases List.mem_cons.mp hq with rfl | hq'
        · exact absurd hq1 h
        · exact ⟨q, hq', hq1⟩
      rw [if_neg h, pyLookup_cons, pyLookup_cons, ih hmem']
      by_cases h2 : k' = k
      · rw [if_pos h2, if_neg (fun hc => h (h2.trans hc.symm)), if_pos h2]
      · rw [if_neg h2, if_neg h2]

theorem pyLookup_pyDictInsert (d : List (Str × Str)) (kv : Str × Str)
    (k : Str) :
    pyLookup (pyDictInsert d kv) k
      = if kv.1 = k then some kv.2 else pyLookup d k := by
  obtain ⟨a, b⟩ := kv
  unfold pyDictInsert
  by_cases hmem : ∃ p ∈ d, p.1 = a
  · rw [if_pos (by simpa using hmem)]
    exact pyLookup_map_replace d a b k hmem
  · rw [if_neg (by simpa using hmem)]
    rw [pyLookup_append]
    by_cases hk : a = k
    · have hnone : pyLookup d k = none := by
        apply pyLookup_eq_none
        intro hc
        rcases List.mem_map.mp hc with ⟨q, hq, hq1⟩
        exact hmem ⟨q, hq, hq1.trans hk.symm⟩
      simp [hnone, pyLookup, hk, optOr]
    · simp [pyLookup, hk, optOr_none_right]

theorem pyLookup_foldl (pairs : List (Str × Str)) (d : List (Str × Str))
    (k : Str) :
    pyLookup (pairs.foldl pyDictInsert d) k
      = optOr (pyLookup pairs.reverse k) (pyLookup d k) := by
  induction pairs generalizing d with
  | nil => rfl
  | cons kv rest ih =>
    rw [List.foldl_cons, ih (pyDictInsert d kv), pyLookup_pyDictInsert,
      List.reverse_cons, pyLookup_append]
    obtain ⟨a, b⟩ := kv
    rw [pyLookup_cons]
    cases hr : pyLookup rest.reverse k with
    | some v => rfl
    | none =>
      by_cases hk : a = k
      · rw [if_pos hk, if_pos hk]
        rfl
      · rw [if_neg hk, if_neg hk]
        rfl

/-- Lookup in a Python dict built from a pair list is lookup in the
reversed pair list: the last binding of a key wins. -/
theorem pyLookup_pyDict (pairs : List (Str × Str)) (k : Str) :
    pyLookup (pyDict pairs) k = pyLookup pairs.reverse k := by
  unfold pyDict
  rw [pyLookup_foldl]
  exact optOr_none_right _

theorem map_fst_zip_sublist (l₁ : List Str) (l₂ : List Str) :
    ((List.zip l₁ l₂).map Prod.fst).Sublist l₁ := by
  induction l₁ generalizing l₂ with
  | nil => simp
  | cons a l₁ ih =>
    cases l₂ with
    | nil => simp
    | cons b l₂ =>
      rw [List.zip_cons_cons, List.map_cons]
      exact (ih l₂).cons₂ a

theorem pyDict_fresh (pairs : List (Str × Str)) :
    ∀ d : List (Str × Str),
      (∀ p ∈ pairs, ∀ q ∈ d, q.1 ≠ p.1) →
      (pairs.map Prod.fst).Nodup →
      pairs.foldl pyDictInsert d = d ++ pairs := by
  induction pairs with
  | nil => intro d _ _; simp
  | cons kv rest ih =>
    intro d hfresh hnd
    have hins : pyDictInsert d kv = d ++ [kv] := by
      unfold pyDictInsert
      rw [if_neg]
      simp only [List.any_eq_true, not_exists, not_and]
      intro q hq
      simpa using hfresh kv (List.mem_cons_self kv rest) q hq
    have hk : kv.1 ∉ rest.map Prod.fst :=
      (List.nodup_cons.mp (by simpa using hnd)).1
    have hnd' : (rest.map Prod.fst).Nodup :=
      (List.nodup_cons.mp (by simpa using hnd)).2
    have hfresh' : ∀ p ∈ rest, ∀ q ∈ d ++ [kv], q.1 ≠ p.1 := by
      intro p hp q hq
      rcases List.mem_append.mp hq with hq' | hq'
      · exact hfresh p (List.mem_cons_of_mem kv hp) q hq'
      · have hq2 : q = kv := by simpa using hq'
        subst hq2
        intro hc
        exact hk (by rw [hc]; exact List.mem_map_of_mem Prod.fst hp)
    rw [List.foldl_cons, hins, ih (d ++ [kv]) hfresh' hnd', List.append_assoc,
      List.singleton_append]

/-- A `pyDict` over pairs with pairwise-distinct keys is the pair list
itself. -/
theorem pyDict_eq_self (pairs : List (Str × Str))
    (hnd : (pairs.map Prod.fst).Nodup) : pyDict pairs = pairs := by
  unfold pyDict
  rw [pyDict_fresh pairs [] (by simp) hnd]
  rfl

theorem keys_pyDictInsert (d : List (Str × Str)) (kv : Str × Str) (k : Str)
    (hk : k ∈ (pyDictInsert d kv).map Prod.fst) :
    k ∈ d.map Prod.fst ∨ k = kv.1 := by
  unfold pyDictInsert at hk
  by_cases hmem : d.any (fun p => p.1 = kv.1) = true
  · rw [if_pos hmem] at hk
    obtain ⟨x, hx, hx1⟩ := List.mem_map.mp hk
    obtain ⟨p, hp, hpf⟩ := List.mem_map.mp hx
    by_cases h : p.1 = kv.1
    · right
      rw [← hx1, ← hpf, if_pos h]
    · left
      rw [← hx1, ← hpf, if_neg h]
      exact List.mem_map_of_mem Prod.fst hp
  · rw [if_neg hmem, List.map_append] at hk
    rcases List.mem_append.mp hk with h | h
    · left; exact h
    · right; simpa using h

theorem keys_pyDict_sub (pairs : List (Str × Str)) (k : Str) :
    ∀ d, k ∈ ((pairs.foldl pyDictInsert d).map Prod.fst) →
      k ∈ d.map Prod.fst ∨ k ∈ pairs.map Prod.fst := by
  induction pairs with
  | nil =>
    intro d h
    left
    exact h
  | cons kv rest ih =>
    intro d h
    rw [List.foldl_cons] at h
    rcases ih (pyDictInsert d kv) h with h' | h'
    · rcases keys_pyDictInsert d kv k h' with h2 | h2
      · left; exact h2
      · right
        rw [List.map_cons, h2]
        exact List.mem_cons_self _ _
    · right
      rw [List.map_cons]
      exact List.mem_cons_of_mem _ h'

/-- C1: row construction truncates at the shorter of header and split
values: on a duplicate-free header the row is exactly the positional zip
of the header against the split line (so its length is the minimum of the
two lengths); with header `[a, b, c]`, the line `"1,2"` yields
`{a: "1", b: "2"}` with no key `c`, and the line `"1,2,3,4"` yields
`{a: "1", b: "2", c: "3"}` with the trailing `"4"` dropped. -/
theorem row_truncation :
    (∀ (header : List Str) (line : Str), header.Nodup →
        mkRow header line = List.zip header (pySplit ',' line) ∧
        (mkRow header line).length
          = min header.length (pySplit ',' line).length) ∧
    mkRow [str "a", str "b", str "c"] (str "1,2")
      = [(str "a", str "1"), (str "b", str "2")] ∧
    mkRow [str "a", str "b", str "c"] (str "1,2,3,4")
      = [(str "a", str "1"), (str "b", str "2"), (str "c", str "3")] := by
  refine ⟨?_, by decide, by decide⟩
  intro header line hnd
  have hkeys : ((List.zip header (pySplit ',' line)).map Prod.fst).Nodup :=
    (map_fst_zip_sublist header (pySplit ',' line)).nodup hnd
  have he : mkRow header line = List.zip header (pySplit ',' line) :=
    pyDict_eq_self _ hkeys
  refine ⟨he, ?_⟩
  rw [he, List.length_zip]

/-- C1 witness: the general truncation law applied to the duplicate-free
header `["a", "b"]` and the line `"1,2,3"`. -/
theorem row_truncation_witness :
    mkRow [str "a", str "b"] (str "1,2,3")
      = List.zip [str "a", str "b"] (pySplit ',' (str "1,2,3")) ∧
    (mkRow [str "a", str "b"] (str "1,2,3")).length
      = min ([str "a", str "b"] : List Str).length
          (pySplit ',' (str "1,2,3")).length :=
  row_truncation.1 [str "a", str "b"] (str "1,2,3") (by decide)

/-- C9: every key of a constructed row is a header field name. -/
theorem row_keys_subset (header : List Str) (line : Str) (k : Str)
    (hk : k ∈ (mkRow header line).map Prod.fst) : k ∈ header := by
  unfold mkRow pyDict at hk
  rcases keys_pyDict_sub _ k [] hk with h | h
  · simp at h
  · exact (map_fst_zip_sublist header (pySplit ',' line)).subset h

/-- C9 witness: the key `"a"` of the row built from header
`["a", "b", "c"]` and line `"1,2"` is a header name. -/
theorem row_keys_subset_witness :
    str "a" ∈ (mkRow [str "a", str "b", str "c"] (str "1,2")).map Prod.fst ∧
    str "a" ∈ ([str "a", str "b", str "c"] : List Str) :=
  ⟨by decide,
   row_keys_subset [str "a", str "b", str "c"] (str "1,2") (str "a") (by decide)⟩

theorem pyLookup_rev_zip (h₂ : List Str) (name : Str) (hnot : name ∉ h₂) :
    ∀ (h₁ : List Str) (vals : List Str), h₁.length < vals.length →
      pyLookup (List.zip (h₁ ++ name :: h₂) vals).reverse name
        = vals[h₁.length]? := by
  intro h₁
  induction h₁ with
  | nil =>
    intro vals hlen
    cases vals with
    | nil => simp at hlen
    | cons v vs =>
      rw [List.nil_append, List.zip_cons_cons, List.reverse_cons,
        pyLookup_append]
      have hz : pyLookup (List.zip h₂ vs).reverse name = none := by
        apply pyLookup_eq_none
        intro hmem
        rw [List.map_reverse, List.mem_reverse] at hmem
        exact hnot ((map_fst_zip_sublist h₂ vs).subset hmem)
      rw [hz]
      simp [pyLookup, optOr]
  | cons a h₁' ih =>
    intro vals hlen
    cases vals with
    | nil => simp at hlen
    | cons v vs =>
      have hlen' : h₁'.length < vs.length := by
        simpa using Nat.lt_of_succ_lt_succ (by simpa using hlen)
      rw [List.cons_append, List.zip_cons_cons, List.reverse_cons,
        pyLookup_append, ih vs hlen']
      simp only [List.length_cons, List.getElem?_cons_succ]
      rw [List.getElem?_eq_getElem hlen']
      rfl

/-- C8: duplicate header names follow last-wins. When the header is
`h₁ ++ name :: h₂` with `name` already occurring in `h₁` (a duplicate),
`name` not occurring later than this last position, and the split line
long enough to reach it, looking `name` up in the constructed row returns
the split value paired with that last occurrence. -/
theorem duplicate_last_wins (h₁ h₂ : List Str) (name : Str) (line : Str)
    (_hdup : name ∈ h₁) (hnot : name ∉ h₂)
    (hlen : h₁.length < (pySplit ',' line).length) :
    pyLookup (mkRow (h₁ ++ name :: h₂) line) name
      = (pySplit ',' line)[h₁.length]? := by
  unfold mkRow
  rw [pyLookup_pyDict]
  exact pyLookup_rev_zip h₂ name hnot h₁ (pySplit ',' line) hlen

/-- C8 witness: header `["a", "b", "a"]` with line `"1,2,3"` — looking up
`"a"` returns the value `"3"` paired with the last occurrence. -/
theorem duplicate_last_wins_witness :
    pyLookup (mkRow ([str "a", str "b"] ++ str "a" :: ([] : List Str))
        (str "1,2,3")) (str "a")
      = (pySplit ',' (str "1,2,3"))[([str "a", str "b"] : List Str).length]? :=
  duplicate_last_wins [str "a", str "b"] [] (str "a") (str "1,2,3")
    (by decide) (by decide) (by decide)

/-! ### Splitting lemmas -/

theorem pySplit_ne_nil (sep : Char) (s : Str) : pySplit sep s ≠ [] := by
  cases s with
  | nil => simp [pySplit]
  | cons c rest =>
    unfold pySplit
    cases pySplit sep rest with
    | nil => simp
    | cons f fs =>
      by_cases h : c = sep <;> simp [h]

theorem pySplit_cons (sep c : Char) (rest : Str) (g : Str) (gs : List Str)
    (hps : pySplit sep rest = g :: gs) :
    pySplit sep (c :: rest)
      = if c = sep then [] :: g :: gs else (c :: g) :: gs := by
  unfold pySplit
  rw [hps]

theorem pySplit_last_retains (sep c : Char) (hc : c ≠ sep) :
    ∀ (s : Str) (f : Str),
      (pySplit sep (s ++ [c])).getLast? = some f → f.getLast? = some c := by
  intro s
  induction s with
  | nil =>
    intro f hf
    have he : pySplit sep [c] = [[c]] := by
      simp [pySplit, hc]
    rw [List.nil_append, he] at hf
    have hfe : f = [c] := by simpa using hf.symm
    rw [hfe]
    rfl
  | cons c' s ih =>
    intro f hf
    have hne := pySplit_ne_nil sep (s ++ [c])
    rw [List.cons_append] at hf
    cases hps : pySplit sep (s ++ [c]) with
    | nil => exact absurd hps hne
    | cons g gs =>
      rw [pySplit_cons sep c' (s ++ [c]) g gs hps] at hf
      by_cases h' : c' = sep
      · rw [if_pos h', List.getLast?_cons_cons] at hf
        exact ih f (by rw [hps]; exact hf)
      · rw [if_neg h'] at hf
        cases gs with
        | nil =>
          have hfe : f = c' :: g := by simpa using hf.symm
          have hg : g.getLast? = some c := ih g (by rw [hps]; rfl)
          cases g with
          | nil => simp at hg
          | cons x xs =>
            rw [hfe, List.getLast?_cons_cons]
            exact hg
        | cons g₂ gs₂ =>
          rw [List.getLast?_cons_cons] at hf
          exact ih f (by rw [hps, List.getLast?_cons_cons]; exact hf)

/-- C10: raw lines are never stripped — splitting any line that ends in a
newline leaves the newline on the last field (so the last header name and
the last value of every row retain it); `int` conversion still succeeds on
such values because parsing accepts surrounding whitespace, so the value
`"3\n"` contributes 3 to a sum. -/
theorem unstripped_trailing_newline :
    (∀ (s : Str) (f : Str),
        (pySplit ',' (s ++ ['\n'])).getLast? = some f →
        f.getLast? = some '\n') ∧
    pySplit ',' (str "qty\n") = [str "qty\n"] ∧
    pyInt (str "3\n") = some 3 ∧
    compute (RecordStream.make [str "qty\n", str "3\n"]) (str "qty\n")
        .rsum .skip = .ok 3 :=
  ⟨pySplit_last_retains ',' '\n' (by decide), by decide, by decide, by decide⟩

/-- C10 witness: the general last-field law applied to the line
`"qty,x" ++ "\n"`, whose last field `"x\n"` ends in the newline. -/
theorem unstripped_trailing_newline_witness :
    (pySplit ',' (str "qty,x" ++ ['\n'])).getLast? = some (str "x\n") ∧
    (str "x\n").getLast? = some '\n' :=
  ⟨by decide,
   unstripped_trailing_newline.1 (str "qty,x") (str "x\n") (by decide)⟩
